import Mathlib

/-!
Verification model of `prepare-pangenomes.py`: a resumable batch pipeline that
merges per-genome FASTA files into one output while rewriting record ids and
writing per-genome scaffold maps, with checkpointed resume.

Files are modelled as lists of lines (scaffold maps, checkpoint, error log) or
lists of records (the merged FASTA stream); the file system for scaffold maps
is a partial map from path strings to contents.  Python `pathlib` operations
(`name`, `stem`, `suffix`, `with_suffix`) are modelled on character lists.
-/

/-- Split a reversed character list at the first occurrence of `c`:
`revBreak c m = some (a, b)` when `m = a ++ c :: b` and `c` is not in `a`. -/
def revBreak (c : Char) : List Char → Option (List Char × List Char)
  | [] => none
  | x :: xs =>
    if x = c then some ([], xs)
    else
      match revBreak c xs with
      | none => none
      | some (a, b) => some (x :: a, b)

theorem revBreak_eq_some {c : Char} : ∀ {m a b : List Char},
    revBreak c m = some (a, b) → m = a ++ c :: b := by
  intro m
  induction m with
  | nil => intro a b h; simp [revBreak] at h
  | cons x xs ih =>
    intro a b h
    by_cases hx : x = c
    · simp [revBreak, hx] at h
      simp [hx, ← h.1, ← h.2]
    · simp [revBreak, hx] at h
      cases hr : revBreak c xs with
      | none => rw [hr] at h; simp at h
      | some p =>
        rw [hr] at h
        simp at h
        obtain ⟨ha, hb⟩ := h
        have := ih (a := p.1) (b := p.2) (by rw [hr])
        subst ha hb
        simp [this]

theorem revBreak_none_of_not_mem {c : Char} : ∀ {m : List Char},
    c ∉ m → revBreak c m = none := by
  intro m
  induction m with
  | nil => intro _; rfl
  | cons x xs ih =>
    intro h
    have hx : x ≠ c := fun he => h (by simp [he])
    have hxs : c ∉ xs := fun he => h (by simp [he])
    simp [revBreak, hx, ih hxs]

theorem revBreak_append_cons {c : Char} : ∀ {xs ys : List Char},
    c ∉ xs → revBreak c (xs ++ c :: ys) = some (xs, ys) := by
  intro xs
  induction xs with
  | nil => intro ys _; simp [revBreak]
  | cons x xs ih =>
    intro ys h
    have hx : x ≠ c := fun he => h (by simp [he])
    have hxs : c ∉ xs := fun he => h (by simp [he])
    simp [revBreak, hx, ih hxs]

/-- Characters of the last path component (after the last `/`), as in
Python `PurePath.name` for paths without a trailing slash. -/
def pyNameChars (l : List Char) : List Char :=
  match revBreak '/' l.reverse with
  | none => l
  | some (a, _) => a.reverse

/-- Characters of the leading directory part including the final `/`
(empty when the path has no `/`). -/
def pyDirChars (l : List Char) : List Char :=
  match revBreak '/' l.reverse with
  | none => []
  | some (_, b) => b.reverse ++ ['/']

theorem pyDirChars_append_pyNameChars (l : List Char) :
    pyDirChars l ++ pyNameChars l = l := by
  unfold pyDirChars pyNameChars
  cases hr : revBreak '/' l.reverse with
  | none => simp
  | some p =>
    have h := revBreak_eq_some hr
    have : l = (p.1 ++ '/' :: p.2).reverse := by
      rw [← h]; simp
    simp [this]

/-- Python `PurePath` stem/suffix split on the characters of a file name:
the suffix starts at the last dot, provided that dot is neither the first
nor the last character of the name; otherwise the suffix is empty. -/
def pySplitExtChars (n : List Char) : List Char × List Char :=
  match revBreak '.' n.reverse with
  | none => (n, [])
  | some (a, b) =>
    if a = [] ∨ b = [] then (n, []) else (b.reverse, '.' :: a.reverse)

theorem pySplitExtChars_append (n : List Char) :
    (pySplitExtChars n).1 ++ (pySplitExtChars n).2 = n := by
  unfold pySplitExtChars
  cases hr : revBreak '.' n.reverse with
  | none => simp
  | some p =>
    have h := revBreak_eq_some hr
    have hn : n = (p.1 ++ '.' :: p.2).reverse := by
      rw [← h]; simp
    by_cases hc : p.1 = [] ∨ p.2 = []
    · simp [hc]
    · simp only [hc, if_false]
      simp [hn]

/-- Python `Path(p).name` on a path string. -/
def pyName (p : String) : String := String.mk (pyNameChars p.toList)

/-- Python `Path(p).stem` on a path string. -/
def pyStem (p : String) : String :=
  String.mk (pySplitExtChars (pyNameChars p.toList)).1

/-- Python `Path(p).suffix` on a path string. -/
def pySuffix (p : String) : String :=
  String.mk (pySplitExtChars (pyNameChars p.toList)).2

/-- Python `Path(p).with_suffix(ns)`: directory part plus stem plus the new
suffix. -/
def pyWithSuffix (p ns : String) : String :=
  String.mk (pyDirChars p.toList ++ (pySplitExtChars (pyNameChars p.toList)).1) ++ ns

theorem String.mk_append (a b : List Char) :
    String.mk a ++ String.mk b = String.mk (a ++ b) := rfl

theorem pyWithSuffix_own_suffix (p ns : String) :
    pyWithSuffix p (pySuffix p ++ ns) = p ++ ns := by
  cases p with
  | mk d =>
    show String.mk (pyDirChars d ++ (pySplitExtChars (pyNameChars d)).1) ++
        (String.mk (pySplitExtChars (pyNameChars d)).2 ++ ns) = String.mk d ++ ns
    cases ns with
    | mk nd =>
      show String.mk (pyDirChars d ++ (pySplitExtChars (pyNameChars d)).1) ++
          (String.mk ((pySplitExtChars (pyNameChars d)).2 ++ nd)) = String.mk (d ++ nd)
      rw [String.mk_append]
      rw [List.append_assoc, ← List.append_assoc (pySplitExtChars (pyNameChars d)).1]
      rw [pySplitExtChars_append, ← List.append_assoc, pyDirChars_append_pyNameChars]

/-- Model of Python `str.endsWith` via character lists. -/
def endsWithStr (s t : String) : Bool := t.toList.isSuffixOf s.toList

/-- Model of Python slicing `s[:-n]`: drop the last `n` characters. -/
def dropRightStr (s : String) (n : Nat) : String :=
  String.mk (s.toList.take (s.toList.length - n))

/-- Model of Python `str.strip()`: remove leading and trailing whitespace. -/
def pyStrip (s : String) : String :=
  String.mk (((s.toList.dropWhile Char.isWhitespace).reverse.dropWhile
    Char.isWhitespace).reverse)

/-! ## Data model: records, file system, record source -/

/-- One sequence record as handled by the script: an identifier, a free-text
description, and the sequence itself. -/
structure FastaRecord where
  id : String
  description : String
  seq : String
deriving DecidableEq

/-- File-system view used for scaffold maps: path string to file lines;
`none` means no file exists at that path. -/
abbrev MapFS := String → Option (List String)

def setFile (fs : MapFS) (p : String) (c : List String) : MapFS :=
  fun q => if q = p then some c else fs q

def removeFile (fs : MapFS) (p : String) : MapFS :=
  fun q => if q = p then none else fs q

/-- The record source (`SeqIO.parse` over `open_fasta_auto`): for each input
path, either the list of records it yields or a failure.  A failure stands
for any exception raised while opening or parsing that input. -/
abbrev RecordSource := String → Except String (List FastaRecord)

def srcOk (src : RecordSource) (p : String) : Bool :=
  match src p with
  | .ok _ => true
  | .error _ => false

/-! ## The genome processor (`process_one_genome`) -/

/-- Scaffold-map base name: `fasta_path.stem`, then strip a trailing
`.fasta` (handles `.fasta.gz`), as in lines 46-48 of the script. -/
def scaffoldBaseName (fastaPath : String) : String :=
  let base := pyStem fastaPath
  if endsWithStr base ".fasta" then dropRightStr base 6 else base

/-- Final scaffold-map path: `scaffold_map_dir / f"{base_name}.txt"`. -/
def scaffoldMapPath (mapDir fastaPath : String) : String :=
  mapDir ++ "/" ++ scaffoldBaseName fastaPath ++ ".txt"

/-- Temporary map path:
`scaffold_map_path.with_suffix(scaffold_map_path.suffix + ".tmp")`. -/
def tmpMapPath (mapDir fastaPath : String) : String :=
  pyWithSuffix (scaffoldMapPath mapDir fastaPath)
    (pySuffix (scaffoldMapPath mapDir fastaPath) ++ ".tmp")

/-- The per-record loop of `process_one_genome` (lines 57-62): for each
record, emit the map line `originalID<TAB>newID` and the record with its id
replaced by `sample+delim+haplo+delim+originalID` and its description
cleared. -/
def processRecordsLoop (sample delim haplo : String) :
    List FastaRecord → List String × List FastaRecord
  | [] => ([], [])
  | r :: rs =>
    let newId := sample ++ delim ++ haplo ++ delim ++ r.id
    let rest := processRecordsLoop sample delim haplo rs
    ((r.id ++ "\t" ++ newId) :: rest.1,
     { id := newId, description := "", seq := r.seq } :: rest.2)

/-- `process_one_genome`: writes the temp map and the rewritten records,
then renames the temp map onto the final path.  Returns the updated map
file system, the grown output stream, and `ok scaffoldMapPath` on success
or `error e` when the record source fails (the freshly opened, empty temp
map is left behind in that case). -/
def process_one_genome (src : RecordSource) (sample fastaPath mapDir delim haplo : String)
    (mapsFs : MapFS) (out : List FastaRecord) :
    MapFS × List FastaRecord × Except String String :=
  let finalPath := scaffoldMapPath mapDir fastaPath
  let tmp := tmpMapPath mapDir fastaPath
  match src fastaPath with
  | .error e => (setFile mapsFs tmp [], out, .error e)
  | .ok recs =>
    let step := processRecordsLoop sample delim haplo recs
    let fs1 := setFile mapsFs tmp step.1
    let fs2 := setFile (removeFile fs1 tmp) finalPath step.1
    (fs2, out ++ step.2, .ok finalPath)

/-- Trace of the scaffold-map file system across one `process_one_genome`
call: the initial state, the state after opening the temp map, the state
after each map line is written, and the state after the final rename. -/
def processGenomeTrace (src : RecordSource) (sample fastaPath mapDir delim haplo : String)
    (mapsFs : MapFS) : List MapFS :=
  let finalPath := scaffoldMapPath mapDir fastaPath
  let tmp := tmpMapPath mapDir fastaPath
  match src fastaPath with
  | .error _ => [mapsFs, setFile mapsFs tmp []]
  | .ok recs =>
    let full := (processRecordsLoop sample delim haplo recs).1
    mapsFs ::
      ((List.range (recs.length + 1)).map fun i =>
        setFile mapsFs tmp ((processRecordsLoop sample delim haplo (recs.take i)).1)) ++
      [setFile (removeFile (setFile mapsFs tmp full) tmp) finalPath full]

/-! ## Checkpoint store, error log -/

/-- `load_checkpoint`: empty set when the file is absent, else the stripped
non-blank lines. -/
def load_checkpoint (ckpt : Option (List String)) : List String :=
  match ckpt with
  | none => []
  | some lines => (lines.map pyStrip).filter (fun l => !(l == ""))

/-- `append_checkpoint`: append one line (opening in mode `a` creates the
file if absent). -/
def append_checkpoint (ckpt : Option (List String)) (sampleName : String) :
    Option (List String) :=
  some (ckpt.getD [] ++ [sampleName])

/-- `log_error`: append one structured line to the error log. -/
def log_error (errlog : List String) (sampleName fastaPath err : String) : List String :=
  errlog ++ ["[ERROR] sample=" ++ sampleName ++ " file=" ++ fastaPath ++ " error=" ++ err]

/-! ## The orchestrator (`rewrite_headers_and_concat_with_checkpoints`) -/

/-- Durable pipeline state: the uncompressed merged output, the checkpoint
file, the error log, and the scaffold-map file system.  `none` models an
absent file. -/
structure OrchState where
  tempOut : Option (List FastaRecord)
  ckpt : Option (List String)
  errlog : List String
  mapsFs : MapFS

/-- Observable actions of a run, used to state ordering properties. -/
inductive Event where
  | attempt (sample fastaPath : String)
  | ckptAppend (sample : String)
  | errAppend (sample fastaPath : String)
  | bgzip (path : String)
deriving DecidableEq

/-- Loop body of the orchestrator (lines 87-96): attempt the item; on
success append the checkpoint, on failure count it and log it. -/
def orchStep (src : RecordSource) (mapDir delim haplo : String)
    (acc : OrchState × Nat × List Event) (item : String × String) :
    OrchState × Nat × List Event :=
  let st := acc.1
  let evs := acc.2.2 ++ [Event.attempt item.1 item.2]
  let r := process_one_genome src item.1 item.2 mapDir delim haplo st.mapsFs
    (st.tempOut.getD [])
  match r.2.2 with
  | .ok _ =>
    ({ st with
        mapsFs := r.1
        tempOut := some r.2.1
        ckpt := append_checkpoint st.ckpt item.1 },
     acc.2.1, evs ++ [Event.ckptAppend item.1])
  | .error e =>
    ({ st with
        mapsFs := r.1
        tempOut := some r.2.1
        errlog := log_error st.errlog item.1 item.2 e },
     acc.2.1 + 1, evs ++ [Event.errAppend item.1 item.2])

/-- `to_do`: the work items whose sample name is absent from the loaded
checkpoint set, in work-list order (line 74 of the script). -/
def toDoOf (genomes : List (String × String)) (st : OrchState) :
    List (String × String) :=
  genomes.filter (fun g => !((load_checkpoint st.ckpt).contains g.1))

/-- The orchestrator: load the checkpoint, filter the work list against it,
open the temp output (create empty when absent, keep content when
resuming), then run the loop.  Returns the final state, the failure count,
and the event trace. -/
def rewrite_headers_and_concat_with_checkpoints (src : RecordSource)
    (genomes : List (String × String)) (mapDir delim haplo : String)
    (st : OrchState) : OrchState × Nat × List Event :=
  let st0 : OrchState := { st with tempOut := some (st.tempOut.getD []) }
  (toDoOf genomes st).foldl (orchStep src mapDir delim haplo) (st0, 0, [])

/-! ## Reset and the main pipeline (`__main__`) -/

/-- The `--reset` branch (lines 129-134): unlink the checkpoint file and
the uncompressed temp output, each only if it exists. -/
def resetState (st : OrchState) : OrchState :=
  let st1 := if st.ckpt.isSome then { st with ckpt := none } else st
  if st1.tempOut.isSome then { st1 with tempOut := none } else st1

/-- Outcome of one pipeline invocation. -/
structure MainResult where
  configError : Bool
  events : List Event
  exitCode : Nat
  failures : Nat
  finalState : OrchState

/-- The `__main__` block: check the output suffix, apply `--reset`, run the
orchestrator (fixed delimiter `#`), compress once, and report the exit
code.  A configuration error aborts before any work-list processing; an
uncaught exception exits the interpreter with status 1. -/
def mainPipeline (src : RecordSource) (genomes : List (String × String))
    (output_fasta mapDir haplo : String) (reset : Bool) (st : OrchState) :
    MainResult :=
  if pySuffix output_fasta ≠ ".gz" then
    { configError := true, events := [], exitCode := 1, failures := 0, finalState := st }
  else
    let tempPath := pyWithSuffix output_fasta ""
    let st1 := if reset then resetState st else st
    let r := rewrite_headers_and_concat_with_checkpoints src genomes mapDir "#" haplo st1
    { configError := false,
      events := r.2.2 ++ [Event.bgzip tempPath],
      exitCode := if r.2.1 > 0 then 1 else 0,
      failures := r.2.1,
      finalState := r.1 }

/-! ## Event extraction and the orchestrator loop characterization -/

/-- Work items for which the genome processor was invoked, in order. -/
def attemptsOf (evs : List Event) : List (String × String) :=
  evs.filterMap fun e =>
    match e with
    | .attempt s p => some (s, p)
    | _ => none

/-- Sample names appended to the checkpoint store, in order. -/
def ckptAppendsOf (evs : List Event) : List String :=
  evs.filterMap fun e =>
    match e with
    | .ckptAppend s => some s
    | _ => none

/-- Items for which an error-log entry was appended, in order. -/
def errAppendsOf (evs : List Event) : List (String × String) :=
  evs.filterMap fun e =>
    match e with
    | .errAppend s p => some (s, p)
    | _ => none

def isBgzipEv : Event → Bool
  | .bgzip _ => true
  | _ => false

/-- The events one work item contributes: an attempt, then either a
checkpoint append (success) or an error-log append (failure). -/
def itemEvents (src : RecordSource) : List (String × String) → List Event
  | [] => []
  | g :: gs =>
    (Event.attempt g.1 g.2 ::
      (if srcOk src g.2 then [Event.ckptAppend g.1] else [Event.errAppend g.1 g.2])) ++
    itemEvents src gs

theorem attemptsOf_append (a b : List Event) :
    attemptsOf (a ++ b) = attemptsOf a ++ attemptsOf b := by
  simp [attemptsOf]

theorem ckptAppendsOf_append (a b : List Event) :
    ckptAppendsOf (a ++ b) = ckptAppendsOf a ++ ckptAppendsOf b := by
  simp [ckptAppendsOf]

theorem errAppendsOf_append (a b : List Event) :
    errAppendsOf (a ++ b) = errAppendsOf a ++ errAppendsOf b := by
  simp [errAppendsOf]

theorem attemptsOf_itemEvents (src : RecordSource) :
    ∀ l : List (String × String), attemptsOf (itemEvents src l) = l := by
  intro l
  induction l with
  | nil => rfl
  | cons g gs ih =>
    by_cases h : srcOk src g.2 = true
    · simp [itemEvents, h, attemptsOf_append, attemptsOf]
      exact ih
    · simp only [Bool.not_eq_true] at h
      simp [itemEvents, h, attemptsOf_append, attemptsOf]
      exact ih

theorem ckptAppendsOf_itemEvents (src : RecordSource) :
    ∀ l : List (String × String),
    ckptAppendsOf (itemEvents src l) =
      (l.filter (fun g => srcOk src g.2)).map Prod.fst := by
  intro l
  induction l with
  | nil => rfl
  | cons g gs ih =>
    by_cases h : srcOk src g.2 = true
    · simp [itemEvents, h, ckptAppendsOf_append, ckptAppendsOf]
      exact ih
    · simp only [Bool.not_eq_true] at h
      simp [itemEvents, h, ckptAppendsOf_append, ckptAppendsOf]
      exact ih

theorem errAppendsOf_itemEvents (src : RecordSource) :
    ∀ l : List (String × String),
    errAppendsOf (itemEvents src l) = l.filter (fun g => !srcOk src g.2) := by
  intro l
  induction l with
  | nil => rfl
  | cons g gs ih =>
    by_cases h : srcOk src g.2 = true
    · simp [itemEvents, h, errAppendsOf_append, errAppendsOf]
      exact ih
    · simp only [Bool.not_eq_true] at h
      simp [itemEvents, h, errAppendsOf_append, errAppendsOf]
      exact ih

theorem isBgzipEv_itemEvents (src : RecordSource) :
    ∀ l : List (String × String), ∀ e ∈ itemEvents src l, isBgzipEv e = false := by
  intro l
  induction l with
  | nil => intro e he; simp [itemEvents] at he
  | cons g gs ih =>
    intro e he
    by_cases h : srcOk src g.2 = true
    · simp [itemEvents, h] at he
      rcases he with he | he | he
      · simp [he, isBgzipEv]
      · simp [he, isBgzipEv]
      · exact ih e he
    · simp only [Bool.not_eq_true] at h
      simp [itemEvents, h] at he
      rcases he with he | he | he
      · simp [he, isBgzipEv]
      · simp [he, isBgzipEv]
      · exact ih e he

/-- Effect of one successful loop step on the observable state. -/
theorem orchStep_ok (src : RecordSource) (mapDir delim haplo : String)
    (st : OrchState) (f : Nat) (evs : List Event) (item : String × String)
    (recs : List FastaRecord) (hs : src item.2 = .ok recs) :
    (orchStep src mapDir delim haplo (st, f, evs) item).1.ckpt
        = append_checkpoint st.ckpt item.1
    ∧ (orchStep src mapDir delim haplo (st, f, evs) item).1.errlog = st.errlog
    ∧ (orchStep src mapDir delim haplo (st, f, evs) item).1.tempOut.isSome = true
    ∧ (orchStep src mapDir delim haplo (st, f, evs) item).2.1 = f
    ∧ (orchStep src mapDir delim haplo (st, f, evs) item).2.2
        = evs ++ [Event.attempt item.1 item.2, Event.ckptAppend item.1] := by
  simp [orchStep, process_one_genome, hs]

/-- Effect of one failing loop step on the observable state. -/
theorem orchStep_error (src : RecordSource) (mapDir delim haplo : String)
    (st : OrchState) (f : Nat) (evs : List Event) (item : String × String)
    (e : String) (hs : src item.2 = .error e) :
    (orchStep src mapDir delim haplo (st, f, evs) item).1.ckpt = st.ckpt
    ∧ (orchStep src mapDir delim haplo (st, f, evs) item).1.errlog
        = log_error st.errlog item.1 item.2 e
    ∧ (orchStep src mapDir delim haplo (st, f, evs) item).1.tempOut.isSome = true
    ∧ (orchStep src mapDir delim haplo (st, f, evs) item).2.1 = f + 1
    ∧ (orchStep src mapDir delim haplo (st, f, evs) item).2.2
        = evs ++ [Event.attempt item.1 item.2, Event.errAppend item.1 item.2] := by
  simp [orchStep, process_one_genome, hs]

/-- Characterization of the orchestrator loop: events, failure count,
checkpoint contents, error-log length, and temp-output existence. -/
theorem orchFold_spec (src : RecordSource) (mapDir delim haplo : String) :
    ∀ (items : List (String × String)) (st : OrchState) (f0 : Nat) (evs0 : List Event),
    (items.foldl (orchStep src mapDir delim haplo) (st, f0, evs0)).2.2
        = evs0 ++ itemEvents src items
    ∧ (items.foldl (orchStep src mapDir delim haplo) (st, f0, evs0)).2.1
        = f0 + (items.filter (fun g => !srcOk src g.2)).length
    ∧ ((items.foldl (orchStep src mapDir delim haplo) (st, f0, evs0)).1).ckpt.getD []
        = st.ckpt.getD [] ++ (items.filter (fun g => srcOk src g.2)).map Prod.fst
    ∧ ((items.foldl (orchStep src mapDir delim haplo) (st, f0, evs0)).1).errlog.length
        = st.errlog.length + (items.filter (fun g => !srcOk src g.2)).length
    ∧ (st.tempOut.isSome = true →
        ((items.foldl (orchStep src mapDir delim haplo) (st, f0, evs0)).1).tempOut.isSome
          = true) := by
  intro items
  induction items with
  | nil => intro st f0 evs0; simp [itemEvents]
  | cons g gs ih =>
    intro st f0 evs0
    rw [List.foldl_cons]
    have hacc : orchStep src mapDir delim haplo (st, f0, evs0) g
        = ((orchStep src mapDir delim haplo (st, f0, evs0) g).1,
           (orchStep src mapDir delim haplo (st, f0, evs0) g).2.1,
           (orchStep src mapDir delim haplo (st, f0, evs0) g).2.2) := rfl
    rw [hacc]
    obtain ⟨ihe, ihf, ihc, ihl, iht⟩ :=
      ih (orchStep src mapDir delim haplo (st, f0, evs0) g).1
        (orchStep src mapDir delim haplo (st, f0, evs0) g).2.1
        (orchStep src mapDir delim haplo (st, f0, evs0) g).2.2
    cases hs : src g.2 with
    | ok recs =>
      have hok : srcOk src g.2 = true := by simp [srcOk, hs]
      obtain ⟨h1, h2, h3, h4, h5⟩ :=
        orchStep_ok src mapDir delim haplo st f0 evs0 g recs hs
      refine ⟨?_, ?_, ?_, ?_, ?_⟩
      · rw [ihe, h5]
        simp [itemEvents, hok]
      · rw [ihf, h4]
        simp [hok]
      · rw [ihc, h1]
        simp [append_checkpoint, hok]
      · rw [ihl, h2]
        simp [hok]
      · intro _
        exact iht h3
    | error e =>
      have hok : srcOk src g.2 = false := by simp [srcOk, hs]
      obtain ⟨h1, h2, h3, h4, h5⟩ :=
        orchStep_error src mapDir delim haplo st f0 evs0 g e hs
      refine ⟨?_, ?_, ?_, ?_, ?_⟩
      · rw [ihe, h5]
        simp [itemEvents, hok]
      · rw [ihf, h4]
        simp [hok]
        omega
      · rw [ihc, h1]
        simp [hok]
      · rw [ihl, h2]
        simp [log_error, hok]
        omega
      · intro _
        exact iht h3

/-- Run-level characterization of the orchestrator. -/
theorem run_spec (src : RecordSource) (genomes : List (String × String))
    (mapDir delim haplo : String) (st : OrchState) :
    (rewrite_headers_and_concat_with_checkpoints src genomes mapDir delim haplo st).2.2
        = itemEvents src (toDoOf genomes st)
    ∧ (rewrite_headers_and_concat_with_checkpoints src genomes mapDir delim haplo st).2.1
        = ((toDoOf genomes st).filter (fun g => !srcOk src g.2)).length
    ∧ ((rewrite_headers_and_concat_with_checkpoints src genomes mapDir delim haplo st).1).ckpt.getD []
        = st.ckpt.getD []
          ++ ((toDoOf genomes st).filter (fun g => srcOk src g.2)).map Prod.fst
    ∧ ((rewrite_headers_and_concat_with_checkpoints src genomes mapDir delim haplo st).1).errlog.length
        = st.errlog.length
          + ((toDoOf genomes st).filter (fun g => !srcOk src g.2)).length
    ∧ ((rewrite_headers_and_concat_with_checkpoints src genomes mapDir delim haplo st).1).tempOut.isSome
        = true := by
  unfold rewrite_headers_and_concat_with_checkpoints
  obtain ⟨h1, h2, h3, h4, h5⟩ := orchFold_spec src mapDir delim haplo
    (toDoOf genomes st) { st with tempOut := some (st.tempOut.getD []) } 0 []
  exact ⟨by simpa using h1, by simpa using h2, by simpa using h3,
    by simpa using h4, by simpa using h5 rfl⟩

/-- When nothing remains to do, the orchestrator only (re)opens the temp
output and returns zero failures and no events. -/
theorem run_nil (src : RecordSource) (genomes : List (String × String))
    (mapDir delim haplo : String) (st : OrchState)
    (h : toDoOf genomes st = []) :
    rewrite_headers_and_concat_with_checkpoints src genomes mapDir delim haplo st
      = ({ st with tempOut := some (st.tempOut.getD []) }, 0, []) := by
  unfold rewrite_headers_and_concat_with_checkpoints
  rw [h]
  rfl

theorem load_checkpoint_getD (ckpt : Option (List String)) :
    load_checkpoint ckpt = ((ckpt.getD []).map pyStrip).filter (fun l => !(l == "")) := by
  cases ckpt with
  | none => rfl
  | some lines => rfl

/-! ## Auxiliary characterizations for the claims -/

theorem processRecordsLoop_eq (s d h : String) : ∀ l : List FastaRecord,
    processRecordsLoop s d h l =
      (l.map (fun r => r.id ++ "\t" ++ (s ++ d ++ h ++ d ++ r.id)),
       l.map (fun r => { id := s ++ d ++ h ++ d ++ r.id, description := "", seq := r.seq })) := by
  intro l
  induction l with
  | nil => rfl
  | cons r rs ih => simp [processRecordsLoop, ih]

theorem append_tmp_ne (s : String) : s ++ ".tmp" ≠ s := by
  intro he
  have := congrArg String.length he
  simp [String.length_append] at this
  have h4 : ".tmp".length = 4 := rfl
  omega

/-- The temp map path is the final map path with `.tmp` appended. -/
theorem tmpMapPath_eq (mapDir fastaPath : String) :
    tmpMapPath mapDir fastaPath = scaffoldMapPath mapDir fastaPath ++ ".tmp" := by
  unfold tmpMapPath
  exact pyWithSuffix_own_suffix (scaffoldMapPath mapDir fastaPath) ".tmp"

theorem tmpMapPath_ne (mapDir fastaPath : String) :
    tmpMapPath mapDir fastaPath ≠ scaffoldMapPath mapDir fastaPath := by
  rw [tmpMapPath_eq]
  exact append_tmp_ne (scaffoldMapPath mapDir fastaPath)

/-! ## Claim theorems -/

/-- Claim C1: for every processed record with original id `O`, in a run
configured with delimiter `D` and haplotype id `H`, processing a work item
with sample name `S` writes the record to the merged output with its
identifier replaced by exactly `S+D+H+D+O` and its description cleared,
and writes the line `O<TAB>S+D+H+D+O` to that genome's scaffold map. -/
theorem c1_identifier_rewrite (src : RecordSource) (S p mapDir D H : String)
    (mapsFs : MapFS) (out : List FastaRecord) (recs : List FastaRecord)
    (hs : src p = .ok recs) :
    (process_one_genome src S p mapDir D H mapsFs out).2.1
      = out ++ recs.map (fun r =>
          { id := S ++ D ++ H ++ D ++ r.id, description := "", seq := r.seq })
    ∧ (process_one_genome src S p mapDir D H mapsFs out).1 (scaffoldMapPath mapDir p)
      = some (recs.map (fun r => r.id ++ "\t" ++ (S ++ D ++ H ++ D ++ r.id)))
    ∧ (process_one_genome src S p mapDir D H mapsFs out).2.2
      = .ok (scaffoldMapPath mapDir p) := by
  unfold process_one_genome
  rw [hs]
  refine ⟨?_, ?_, rfl⟩
  · simp [processRecordsLoop_eq]
  · simp [setFile, processRecordsLoop_eq]

def srcW1 : RecordSource := fun _ =>
  .ok [{ id := "O1", description := "len=2", seq := "AC" }]

theorem c1_identifier_rewrite_witness :
    srcW1 "g.fasta" = .ok [{ id := "O1", description := "len=2", seq := "AC" }]
    ∧ (process_one_genome srcW1 "S" "g.fasta" "maps" "#" "1" (fun _ => none) []).2.1
      = [{ id := "S#1#O1", description := "", seq := "AC" }]
    ∧ (process_one_genome srcW1 "S" "g.fasta" "maps" "#" "1" (fun _ => none) []).1
        (scaffoldMapPath "maps" "g.fasta")
      = some ["O1\tS#1#O1"]
    ∧ (process_one_genome srcW1 "S" "g.fasta" "maps" "#" "1" (fun _ => none) []).2.2
      = .ok (scaffoldMapPath "maps" "g.fasta") := by
  obtain ⟨h1, h2, h3⟩ := c1_identifier_rewrite srcW1 "S" "g.fasta" "maps" "#" "1"
    (fun _ => none) [] [{ id := "O1", description := "len=2", seq := "AC" }] rfl
  refine ⟨rfl, h1.trans (by decide), h2.trans (by decide), h3⟩

/-- Claim C4: items whose sample name is in the loaded checkpoint set are
never attempted; the attempted items are exactly the work-list items whose
sample names are absent from the loaded set, in work-list order. -/
theorem c4_checkpoint_exclusivity (src : RecordSource)
    (genomes : List (String × String)) (mapDir delim haplo : String)
    (st : OrchState) :
    attemptsOf (rewrite_headers_and_concat_with_checkpoints
        src genomes mapDir delim haplo st).2.2
      = genomes.filter (fun g => !((load_checkpoint st.ckpt).contains g.1))
    ∧ ∀ s p, s ∈ load_checkpoint st.ckpt →
        Event.attempt s p ∉ (rewrite_headers_and_concat_with_checkpoints
          src genomes mapDir delim haplo st).2.2 := by
  obtain ⟨he, -, -, -, -⟩ := run_spec src genomes mapDir delim haplo st
  constructor
  · rw [he, attemptsOf_itemEvents]
    rfl
  · intro s p hdone hmem
    rw [he] at hmem
    have hsp : (s, p) ∈ attemptsOf (itemEvents src (toDoOf genomes st)) := by
      unfold attemptsOf
      exact List.mem_filterMap.mpr ⟨Event.attempt s p, hmem, rfl⟩
    rw [attemptsOf_itemEvents] at hsp
    unfold toDoOf at hsp
    have := List.of_mem_filter hsp
    simp at this
    exact this hdone

def srcC4 : RecordSource := fun _ =>
  .ok [{ id := "r1", description := "", seq := "ACGT" }]

def stC4 : OrchState :=
  { tempOut := none, ckpt := some ["A"], errlog := [], mapsFs := fun _ => none }

theorem c4_checkpoint_exclusivity_witness :
    "A" ∈ load_checkpoint stC4.ckpt
    ∧ attemptsOf (rewrite_headers_and_concat_with_checkpoints
        srcC4 [("A", "a.fasta"), ("B", "b.fasta")] "maps" "#" "1" stC4).2.2
      = [("B", "b.fasta")]
    ∧ Event.attempt "A" "a.fasta" ∉ (rewrite_headers_and_concat_with_checkpoints
        srcC4 [("A", "a.fasta"), ("B", "b.fasta")] "maps" "#" "1" stC4).2.2 := by
  obtain ⟨h1, h2⟩ := c4_checkpoint_exclusivity srcC4
    [("A", "a.fasta"), ("B", "b.fasta")] "maps" "#" "1" stC4
  exact ⟨by decide, h1.trans (by decide), h2 "A" "a.fasta" (by decide)⟩

def srcC2 : RecordSource := fun _ =>
  .ok [{ id := "r1", description := "", seq := "ACGT" }]

def stEmpty : OrchState :=
  { tempOut := none, ckpt := none, errlog := [], mapsFs := fun _ => none }

/-- Counterexample to claim C2 as stated: with a fresh state and the work
list `[("A", _), ("A", _)]`, both occurrences of sample `A` succeed in the
same run and `A` is appended to the checkpoint store twice — the `to_do`
filter is computed once, against the set loaded at run start, so a second
in-run occurrence is not treated as already done. -/
theorem c2_counterexample :
    ckptAppendsOf (rewrite_headers_and_concat_with_checkpoints
        srcC2 [("A", "a.fasta"), ("A", "a.fasta")] "maps" "#" "1" stEmpty).2.2
      = ["A", "A"]
    ∧ (rewrite_headers_and_concat_with_checkpoints
        srcC2 [("A", "a.fasta"), ("A", "a.fasta")] "maps" "#" "1" stEmpty).1.ckpt
      = some ["A", "A"]
    ∧ ¬ ((ckptAppendsOf (rewrite_headers_and_concat_with_checkpoints
        srcC2 [("A", "a.fasta"), ("A", "a.fasta")] "maps" "#" "1" stEmpty).2.2).count "A" ≤ 1) := by
  refine ⟨by decide, by decide, by decide⟩

/-- Claim C2 as amended: a sample name in the checkpoint set loaded at run
start is never appended during the run; and when sample names are unique
in the work list, each sample name is appended at most once per run.  (For
a duplicated sample name, the checkpoint deduplicates only across runs:
within one run every successful occurrence appends, as the counterexample
shows.) -/
theorem c2_amended_at_most_one_append (src : RecordSource)
    (genomes : List (String × String)) (mapDir delim haplo : String)
    (st : OrchState) :
    (∀ s ∈ load_checkpoint st.ckpt,
      s ∉ ckptAppendsOf (rewrite_headers_and_concat_with_checkpoints
        src genomes mapDir delim haplo st).2.2)
    ∧ ((genomes.map Prod.fst).Nodup → ∀ s,
        (ckptAppendsOf (rewrite_headers_and_concat_with_checkpoints
          src genomes mapDir delim haplo st).2.2).count s ≤ 1) := by
  obtain ⟨he, -, -, -, -⟩ := run_spec src genomes mapDir delim haplo st
  rw [he, ckptAppendsOf_itemEvents]
  constructor
  · intro s hdone hmem
    obtain ⟨g, hg, hgs⟩ := List.mem_map.mp hmem
    have hgtd : g ∈ toDoOf genomes st := List.mem_of_mem_filter hg
    unfold toDoOf at hgtd
    have := List.of_mem_filter hgtd
    simp at this
    exact this (hgs ▸ hdone)
  · intro hnd s
    have h1 : ((toDoOf genomes st).filter (fun g => srcOk src g.2)).Sublist
        (toDoOf genomes st) := List.filter_sublist _
    have h2 : (toDoOf genomes st).Sublist genomes := List.filter_sublist _
    have h3 : (((toDoOf genomes st).filter (fun g => srcOk src g.2)).map Prod.fst).Sublist
        (genomes.map Prod.fst) := (h1.trans h2).map Prod.fst
    exact List.nodup_iff_count_le_one.mp (hnd.sublist h3) s

def stC2W : OrchState :=
  { tempOut := none, ckpt := some ["B"], errlog := [], mapsFs := fun _ => none }

theorem c2_amended_witness :
    "B" ∈ load_checkpoint stC2W.ckpt
    ∧ "B" ∉ ckptAppendsOf (rewrite_headers_and_concat_with_checkpoints
        srcC2 [("A", "a.fasta")] "maps" "#" "1" stC2W).2.2
    ∧ ([("A", "a.fasta")].map Prod.fst).Nodup
    ∧ (ckptAppendsOf (rewrite_headers_and_concat_with_checkpoints
        srcC2 [("A", "a.fasta")] "maps" "#" "1" stC2W).2.2).count "A" ≤ 1 := by
  obtain ⟨h1, h2⟩ := c2_amended_at_most_one_append srcC2
    [("A", "a.fasta")] "maps" "#" "1" stC2W
  exact ⟨by decide, h1 "B" (by decide), by decide, h2 (by decide) "A"⟩

/-- Claim C5: if a remaining item fails, every remaining item is still
attempted in order; the failure count equals the number of failing items
(so the failure adds one), each failing item appends exactly one error-log
entry and no checkpoint entry, and the sample name of every item that
succeeds is appended to the checkpoint. -/
theorem c5_failure_isolation (src : RecordSource)
    (genomes : List (String × String)) (mapDir delim haplo : String)
    (st : OrchState) (k : Nat)
    (hk : k < (toDoOf genomes st).length)
    (hf : srcOk src ((toDoOf genomes st).get ⟨k, hk⟩).2 = false) :
    attemptsOf (rewrite_headers_and_concat_with_checkpoints
        src genomes mapDir delim haplo st).2.2
      = toDoOf genomes st
    ∧ (rewrite_headers_and_concat_with_checkpoints
        src genomes mapDir delim haplo st).2.1
      = ((toDoOf genomes st).filter (fun g => !srcOk src g.2)).length
    ∧ 1 ≤ (rewrite_headers_and_concat_with_checkpoints
        src genomes mapDir delim haplo st).2.1
    ∧ errAppendsOf (rewrite_headers_and_concat_with_checkpoints
        src genomes mapDir delim haplo st).2.2
      = (toDoOf genomes st).filter (fun g => !srcOk src g.2)
    ∧ (rewrite_headers_and_concat_with_checkpoints
        src genomes mapDir delim haplo st).1.errlog.length
      = st.errlog.length
        + ((toDoOf genomes st).filter (fun g => !srcOk src g.2)).length
    ∧ ckptAppendsOf (rewrite_headers_and_concat_with_checkpoints
        src genomes mapDir delim haplo st).2.2
      = ((toDoOf genomes st).filter (fun g => srcOk src g.2)).map Prod.fst
    ∧ ((genomes.map Prod.fst).Nodup →
        ((toDoOf genomes st).get ⟨k, hk⟩).1
          ∉ ckptAppendsOf (rewrite_headers_and_concat_with_checkpoints
              src genomes mapDir delim haplo st).2.2) := by
  obtain ⟨he, hfail, -, hlog, -⟩ := run_spec src genomes mapDir delim haplo st
  have hmemk : (toDoOf genomes st).get ⟨k, hk⟩ ∈
      (toDoOf genomes st).filter (fun g => !srcOk src g.2) := by
    refine List.mem_filter.mpr ⟨List.get_mem _ _ _, ?_⟩
    simpa using hf
  refine ⟨?_, hfail, ?_, ?_, hlog, ?_, ?_⟩
  · rw [he, attemptsOf_itemEvents]
  · rw [hfail]
    exact List.length_pos.mpr (fun hnil => by simp [hnil] at hmemk)
  · rw [he, errAppendsOf_itemEvents]
  · rw [he, ckptAppendsOf_itemEvents]
  · intro hnd hmem
    rw [he, ckptAppendsOf_itemEvents] at hmem
    obtain ⟨g, hg, hgs⟩ := List.mem_map.mp hmem
    have hgtd : g ∈ toDoOf genomes st := List.mem_of_mem_filter hg
    have hgok : srcOk src g.2 = true := by
      have := List.of_mem_filter hg
      simpa using this
    have hktd : (toDoOf genomes st).get ⟨k, hk⟩ ∈ toDoOf genomes st :=
      List.get_mem _ _ _
    have hndtd : ((toDoOf genomes st).map Prod.fst).Nodup := by
      have hsub : ((toDoOf genomes st).map Prod.fst).Sublist
          (genomes.map Prod.fst) := (List.filter_sublist _).map Prod.fst
      exact hnd.sublist hsub
    have heq : g = (toDoOf genomes st).get ⟨k, hk⟩ :=
      List.inj_on_of_nodup_map hndtd hgtd hktd hgs
    rw [heq, hf] at hgok
    exact Bool.false_ne_true hgok

def srcC5 : RecordSource := fun p =>
  if p = "bad.fasta" then .error "parse failure"
  else .ok [{ id := "r1", description := "", seq := "ACGT" }]

theorem c5_failure_isolation_witness :
    1 < (toDoOf [("A", "a.fasta"), ("B", "bad.fasta"), ("C", "c.fasta")] stEmpty).length
    ∧ srcOk srcC5 "bad.fasta" = false
    ∧ attemptsOf (rewrite_headers_and_concat_with_checkpoints
        srcC5 [("A", "a.fasta"), ("B", "bad.fasta"), ("C", "c.fasta")] "maps" "#" "1" stEmpty).2.2
      = [("A", "a.fasta"), ("B", "bad.fasta"), ("C", "c.fasta")]
    ∧ (rewrite_headers_and_concat_with_checkpoints
        srcC5 [("A", "a.fasta"), ("B", "bad.fasta"), ("C", "c.fasta")] "maps" "#" "1" stEmpty).2.1
      = 1
    ∧ errAppendsOf (rewrite_headers_and_concat_with_checkpoints
        srcC5 [("A", "a.fasta"), ("B", "bad.fasta"), ("C", "c.fasta")] "maps" "#" "1" stEmpty).2.2
      = [("B", "bad.fasta")]
    ∧ ckptAppendsOf (rewrite_headers_and_concat_with_checkpoints
        srcC5 [("A", "a.fasta"), ("B", "bad.fasta"), ("C", "c.fasta")] "maps" "#" "1" stEmpty).2.2
      = ["A", "C"]
    ∧ "B" ∉ ckptAppendsOf (rewrite_headers_and_concat_with_checkpoints
        srcC5 [("A", "a.fasta"), ("B", "bad.fasta"), ("C", "c.fasta")] "maps" "#" "1" stEmpty).2.2 := by
  obtain ⟨h1, h2, h3, h4, h5, h6, h7⟩ := c5_failure_isolation srcC5
    [("A", "a.fasta"), ("B", "bad.fasta"), ("C", "c.fasta")] "maps" "#" "1" stEmpty
    1 (by decide) (by decide)
  refine ⟨by decide, by decide, h1.trans (by decide), h2.trans (by decide),
    h4.trans (by decide), h6.trans (by decide), ?_⟩
  exact fun hmem => (h7 (by decide)) hmem

theorem orchState_update_tempOut_self (s : OrchState)
    (h : s.tempOut.isSome = true) :
    { s with tempOut := some (s.tempOut.getD []) } = s := by
  cases s with
  | mk tout ck el mf =>
    cases tout with
    | none => simp at h
    | some x => rfl

/-- After a run in which every remaining item succeeds, every work-list
sample name is in the checkpoint set loaded by the next run. -/
theorem post_run_all_checkpointed (src : RecordSource)
    (genomes : List (String × String)) (mapDir delim haplo : String)
    (st : OrchState)
    (hname : ∀ g ∈ genomes, pyStrip g.1 = g.1 ∧ g.1 ≠ "")
    (hok : ∀ g ∈ genomes, srcOk src g.2 = true) :
    ∀ g ∈ genomes, g.1 ∈ load_checkpoint
      (rewrite_headers_and_concat_with_checkpoints
        src genomes mapDir delim haplo st).1.ckpt := by
  obtain ⟨-, -, hck, -, -⟩ := run_spec src genomes mapDir delim haplo st
  have hfl : (toDoOf genomes st).filter (fun g => srcOk src g.2)
      = toDoOf genomes st := by
    refine List.filter_eq_self.mpr ?_
    intro g hg
    exact hok g (List.mem_of_mem_filter hg)
  rw [hfl] at hck
  have hload : load_checkpoint (rewrite_headers_and_concat_with_checkpoints
        src genomes mapDir delim haplo st).1.ckpt
      = load_checkpoint st.ckpt
        ++ (((toDoOf genomes st).map Prod.fst).map pyStrip).filter
            (fun l => !(l == "")) := by
    rw [load_checkpoint_getD, hck, List.map_append, List.filter_append,
      ← load_checkpoint_getD]
  intro g hg
  rw [hload]
  by_cases hc : g.1 ∈ load_checkpoint st.ckpt
  · exact List.mem_append_left _ hc
  · refine List.mem_append_right _ ?_
    have hgtd : g ∈ toDoOf genomes st := by
      unfold toDoOf
      refine List.mem_filter.mpr ⟨hg, ?_⟩
      simpa using hc
    have h1 : g.1 ∈ ((toDoOf genomes st).map Prod.fst).map pyStrip := by
      refine List.mem_map.mpr ⟨g.1, List.mem_map.mpr ⟨g, hgtd, rfl⟩, ?_⟩
      exact (hname g hg).1
    refine List.mem_filter.mpr ⟨h1, ?_⟩
    simpa using (hname g hg).2

/-- Claim C3: after a run in which every work item completes successfully,
running the batch again unmodified attempts zero items, returns zero
failures, and leaves the whole state — merged output, scaffold maps,
checkpoint, error log — unchanged. -/
theorem c3_resume_idempotence (src : RecordSource)
    (genomes : List (String × String)) (mapDir delim haplo : String)
    (st : OrchState)
    (hname : ∀ g ∈ genomes, pyStrip g.1 = g.1 ∧ g.1 ≠ "")
    (hok : ∀ g ∈ genomes, srcOk src g.2 = true) :
    attemptsOf (rewrite_headers_and_concat_with_checkpoints src genomes mapDir delim haplo
        (rewrite_headers_and_concat_with_checkpoints
          src genomes mapDir delim haplo st).1).2.2 = []
    ∧ (rewrite_headers_and_concat_with_checkpoints src genomes mapDir delim haplo
        (rewrite_headers_and_concat_with_checkpoints
          src genomes mapDir delim haplo st).1).2.1 = 0
    ∧ (rewrite_headers_and_concat_with_checkpoints src genomes mapDir delim haplo
        (rewrite_headers_and_concat_with_checkpoints
          src genomes mapDir delim haplo st).1).1
      = (rewrite_headers_and_concat_with_checkpoints
          src genomes mapDir delim haplo st).1 := by
  have hdone := post_run_all_checkpointed src genomes mapDir delim haplo st hname hok
  have htd2 : toDoOf genomes
      (rewrite_headers_and_concat_with_checkpoints
        src genomes mapDir delim haplo st).1 = [] := by
    unfold toDoOf
    refine List.filter_eq_nil_iff.mpr ?_
    intro g hg
    simpa using hdone g hg
  have hnil := run_nil src genomes mapDir delim haplo
    (rewrite_headers_and_concat_with_checkpoints
      src genomes mapDir delim haplo st).1 htd2
  obtain ⟨-, -, -, -, hts⟩ := run_spec src genomes mapDir delim haplo st
  rw [hnil]
  exact ⟨rfl, rfl, orchState_update_tempOut_self _ hts⟩

def srcC3 : RecordSource := fun _ =>
  .ok [{ id := "r1", description := "", seq := "ACGT" }]

theorem c3_resume_idempotence_witness :
    (∀ g ∈ [("A", "a.fasta"), ("B", "b.fasta")], pyStrip g.1 = g.1 ∧ g.1 ≠ "")
    ∧ (∀ g ∈ [("A", "a.fasta"), ("B", "b.fasta")], srcOk srcC3 g.2 = true)
    ∧ attemptsOf (rewrite_headers_and_concat_with_checkpoints srcC3
        [("A", "a.fasta"), ("B", "b.fasta")] "maps" "#" "1"
        (rewrite_headers_and_concat_with_checkpoints srcC3
          [("A", "a.fasta"), ("B", "b.fasta")] "maps" "#" "1" stEmpty).1).2.2 = []
    ∧ (rewrite_headers_and_concat_with_checkpoints srcC3
        [("A", "a.fasta"), ("B", "b.fasta")] "maps" "#" "1"
        (rewrite_headers_and_concat_with_checkpoints srcC3
          [("A", "a.fasta"), ("B", "b.fasta")] "maps" "#" "1" stEmpty).1).2.1 = 0
    ∧ (rewrite_headers_and_concat_with_checkpoints srcC3
        [("A", "a.fasta"), ("B", "b.fasta")] "maps" "#" "1"
        (rewrite_headers_and_concat_with_checkpoints srcC3
          [("A", "a.fasta"), ("B", "b.fasta")] "maps" "#" "1" stEmpty).1).1
      = (rewrite_headers_and_concat_with_checkpoints srcC3
          [("A", "a.fasta"), ("B", "b.fasta")] "maps" "#" "1" stEmpty).1 := by
  obtain ⟨h1, h2, h3⟩ := c3_resume_idempotence srcC3
    [("A", "a.fasta"), ("B", "b.fasta")] "maps" "#" "1" stEmpty
    (by decide) (by decide)
  exact ⟨by decide, by decide, h1, h2, h3⟩

/-- Shape of the processing trace on the success path. -/
theorem processGenomeTrace_ok (src : RecordSource)
    (S p mapDir D H : String) (mapsFs : MapFS) (recs : List FastaRecord)
    (hs : src p = .ok recs) :
    processGenomeTrace src S p mapDir D H mapsFs
      = mapsFs ::
        ((List.range (recs.length + 1)).map fun i =>
          setFile mapsFs (tmpMapPath mapDir p)
            ((processRecordsLoop S D H (recs.take i)).1)) ++
        [setFile (removeFile (setFile mapsFs (tmpMapPath mapDir p)
            (processRecordsLoop S D H recs).1) (tmpMapPath mapDir p))
          (scaffoldMapPath mapDir p) (processRecordsLoop S D H recs).1] := by
  unfold processGenomeTrace
  rw [hs]

/-- Claim C7: the scaffold map is written to a distinct temporary path; at
every point of the processing trace the final map path holds either no
file or the complete map (one line per record), and the last step — the
atomic rename — publishes the complete map under the final name. -/
theorem c7_atomic_map_visibility (src : RecordSource)
    (S p mapDir D H : String) (mapsFs : MapFS) (recs : List FastaRecord)
    (h0 : mapsFs (scaffoldMapPath mapDir p) = none)
    (hs : src p = .ok recs) :
    tmpMapPath mapDir p ≠ scaffoldMapPath mapDir p
    ∧ ((processRecordsLoop S D H recs).1).length = recs.length
    ∧ (∀ fs ∈ processGenomeTrace src S p mapDir D H mapsFs,
        fs (scaffoldMapPath mapDir p) = none
        ∨ fs (scaffoldMapPath mapDir p) = some (processRecordsLoop S D H recs).1)
    ∧ (∃ fsLast, (processGenomeTrace src S p mapDir D H mapsFs).getLast? = some fsLast
        ∧ fsLast (scaffoldMapPath mapDir p) = some (processRecordsLoop S D H recs).1) := by
  have hne := tmpMapPath_ne mapDir p
  have htr := processGenomeTrace_ok src S p mapDir D H mapsFs recs hs
  have htmpLookup : ∀ c : List String,
      setFile mapsFs (tmpMapPath mapDir p) c (scaffoldMapPath mapDir p) = none := by
    intro c
    unfold setFile
    rw [if_neg (fun he => hne he.symm), h0]
  refine ⟨hne, ?_, ?_, ?_⟩
  · rw [processRecordsLoop_eq]
    simp
  · intro fs hfs
    rw [htr] at hfs
    rcases List.mem_cons.mp hfs with hfs | hfs
    · left; rw [hfs]; exact h0
    · rcases List.mem_append.mp hfs with hfs | hfs
      · obtain ⟨i, -, hi⟩ := List.mem_map.mp hfs
        left
        rw [← hi]
        exact htmpLookup _
      · right
        rw [List.mem_singleton.mp hfs]
        unfold setFile
        rw [if_pos rfl]
  · refine ⟨setFile (removeFile (setFile mapsFs (tmpMapPath mapDir p)
        (processRecordsLoop S D H recs).1) (tmpMapPath mapDir p))
        (scaffoldMapPath mapDir p) (processRecordsLoop S D H recs).1, ?_, ?_⟩
    · rw [htr, List.getLast?_concat]
    · unfold setFile
      rw [if_pos rfl]

def srcC7 : RecordSource := fun _ =>
  .ok [{ id := "r1", description := "", seq := "AC" }]

theorem c7_atomic_map_visibility_witness :
    (fun _ => (none : Option (List String))) (scaffoldMapPath "maps" "g.fasta") = none
    ∧ srcC7 "g.fasta" = .ok [{ id := "r1", description := "", seq := "AC" }]
    ∧ tmpMapPath "maps" "g.fasta" ≠ scaffoldMapPath "maps" "g.fasta"
    ∧ (∀ fs ∈ processGenomeTrace srcC7 "S" "g.fasta" "maps" "#" "1" (fun _ => none),
        fs (scaffoldMapPath "maps" "g.fasta") = none
        ∨ fs (scaffoldMapPath "maps" "g.fasta")
            = some (processRecordsLoop "S" "#" "1"
                [{ id := "r1", description := "", seq := "AC" }]).1)
    ∧ (∃ fsLast, (processGenomeTrace srcC7 "S" "g.fasta" "maps" "#" "1"
          (fun _ => none)).getLast? = some fsLast
        ∧ fsLast (scaffoldMapPath "maps" "g.fasta")
            = some (processRecordsLoop "S" "#" "1"
                [{ id := "r1", description := "", seq := "AC" }]).1) := by
  obtain ⟨h1, -, h3, h4⟩ := c7_atomic_map_visibility srcC7 "S" "g.fasta" "maps" "#" "1"
    (fun _ => none) [{ id := "r1", description := "", seq := "AC" }] rfl rfl
  exact ⟨rfl, rfl, h1, h3, h4⟩

/-- Base-name derivation as the specification words it: strip a single
trailing `.gz`, then a trailing format suffix (`.fasta`).  Stated for
comparison with the implementation's `scaffoldBaseName`. -/
def specScaffoldBaseName (fileName : String) : String :=
  let s1 := if endsWithStr fileName ".gz" then dropRightStr fileName 3 else fileName
  if endsWithStr s1 ".fasta" then dropRightStr s1 6 else s1

/-- Counterexample to claim C6 as stated: for the source file name
`a.xyz` the code's `Path.stem` strips the arbitrary suffix `.xyz`, while
the claimed derivation (strip a trailing `.gz`, then a trailing format
suffix) leaves `a.xyz` intact, so the two scaffold-map paths differ. -/
theorem c6_counterexample :
    scaffoldBaseName "a.xyz" = "a"
    ∧ specScaffoldBaseName (pyName "a.xyz") = "a.xyz"
    ∧ scaffoldMapPath "maps" "a.xyz" = "maps/a.txt"
    ∧ "maps" ++ "/" ++ specScaffoldBaseName (pyName "a.xyz") ++ ".txt" = "maps/a.xyz.txt"
    ∧ scaffoldMapPath "maps" "a.xyz"
        ≠ "maps" ++ "/" ++ specScaffoldBaseName (pyName "a.xyz") ++ ".txt" := by
  refine ⟨by decide, by decide, by decide, by decide, by decide⟩

theorem pyNameChars_no_slash (l : List Char) (h : '/' ∉ l) :
    pyNameChars l = l := by
  unfold pyNameChars
  rw [revBreak_none_of_not_mem (by simpa using h)]

theorem pySplitExtChars_single_ext (bl sl : List Char) (hb : bl ≠ []) (hs : sl ≠ [])
    (hdot : '.' ∉ sl) :
    pySplitExtChars (bl ++ '.' :: sl) = (bl, '.' :: sl) := by
  unfold pySplitExtChars
  have hrev : (bl ++ '.' :: sl).reverse = sl.reverse ++ '.' :: bl.reverse := by
    simp
  rw [hrev, revBreak_append_cons (by simpa using hdot)]
  simp [hs, hb]

theorem toList_ne_nil_of_ne_empty {s : String} (h : s ≠ "") : s.toList ≠ [] := by
  intro he
  apply h
  cases s with
  | mk d =>
    cases d with
    | nil => rfl
    | cons c cs => simp [String.toList] at he

/-- On a name consisting of a dot-free stem and one dot-free extension,
the implementation's base name is the stem, whatever the extension is. -/
theorem scaffoldBaseName_single_ext (p b sfx : String)
    (hp : p.toList = b.toList ++ '.' :: sfx.toList)
    (hb1 : '.' ∉ b.toList) (hb2 : '/' ∉ b.toList) (hb3 : b ≠ "")
    (hs1 : sfx ≠ "") (hs2 : '.' ∉ sfx.toList) (hs3 : '/' ∉ sfx.toList) :
    scaffoldBaseName p = b := by
  have hslash : '/' ∉ p.toList := by
    rw [hp]
    intro hm
    rcases List.mem_append.mp hm with hm | hm
    · exact hb2 hm
    · rcases List.mem_cons.mp hm with hm | hm
      · exact absurd hm (by decide)
      · exact hs3 hm
  have hstem : pyStem p = b := by
    unfold pyStem
    rw [pyNameChars_no_slash _ hslash, hp,
      pySplitExtChars_single_ext _ _ (toList_ne_nil_of_ne_empty hb3)
        (toList_ne_nil_of_ne_empty hs1) hs2]
    rfl
  have hend : endsWithStr b ".fasta" = false := by
    rw [Bool.eq_false_iff]
    intro he
    have hsuf : (String.toList ".fasta") <:+ b.toList :=
      List.isSuffixOf_iff_suffix.mp he
    exact hb1 (hsuf.subset (by decide))
  unfold scaffoldBaseName
  rw [hstem]
  simp [hend]

/-- On a name of the form `<dot-free stem>.fasta.gz`, the implementation's
base name is the stem: `Path.stem` strips `.gz`, then the `.fasta` strip
fires. -/
theorem scaffoldBaseName_fasta_gz (p b : String)
    (hp : p.toList = (b.toList ++ (String.toList ".fasta")) ++ '.' :: (String.toList "gz"))
    (hb2 : '/' ∉ b.toList) :
    scaffoldBaseName p = b := by
  have hslash : '/' ∉ p.toList := by
    rw [hp]
    intro hm
    rcases List.mem_append.mp hm with hm | hm
    · rcases List.mem_append.mp hm with hm | hm
      · exact hb2 hm
      · exact absurd hm (by decide)
    · exact absurd hm (by decide)
  have hstem : pyStem p = b ++ ".fasta" := by
    unfold pyStem
    rw [pyNameChars_no_slash _ hslash, hp,
      pySplitExtChars_single_ext _ _ (by simp)
        (by decide) (by decide)]
    rfl
  have hend : endsWithStr (b ++ ".fasta") ".fasta" = true := by
    unfold endsWithStr
    exact List.isSuffixOf_iff_suffix.mpr (List.suffix_append _ _)
  have hdrop : dropRightStr (b ++ ".fasta") 6 = b := by
    unfold dropRightStr
    have h6 : (String.toList ".fasta").length = 6 := rfl
    show String.mk ((b.toList ++ String.toList ".fasta").take
      ((b.toList ++ String.toList ".fasta").length - 6)) = b
    rw [List.length_append, h6, Nat.add_sub_cancel, List.take_left]
    rfl
  unfold scaffoldBaseName
  rw [hstem]
  simp [hend, hdrop]

/-- Claim C6 as amended: the base name is the file name with its final
extension removed — whatever that extension is, this is `Path.stem`, not
specifically `.gz` — followed by removal of a then-trailing `.fasta`; the
map is placed at `scaffoldMapDir/<baseName>.txt`.  For the intended
inputs `<stem>.fasta` and `<stem>.fasta.gz` this agrees with the spec's
derivation; for other extensions it does not (see the counterexample). -/
theorem c6_amended_scaffold_map_name (mapDir b : String)
    (hb1 : '.' ∉ b.toList) (hb2 : '/' ∉ b.toList) (hb3 : b ≠ "") :
    scaffoldMapPath mapDir (b ++ ".fasta") = mapDir ++ "/" ++ b ++ ".txt"
    ∧ scaffoldMapPath mapDir (b ++ ".fasta.gz") = mapDir ++ "/" ++ b ++ ".txt"
    ∧ ∀ sfx : String, sfx ≠ "" → '.' ∉ sfx.toList → '/' ∉ sfx.toList →
        scaffoldMapPath mapDir (b ++ "." ++ sfx) = mapDir ++ "/" ++ b ++ ".txt" := by
  refine ⟨?_, ?_, ?_⟩
  · unfold scaffoldMapPath
    rw [scaffoldBaseName_single_ext (b ++ ".fasta") b "fasta" rfl
      hb1 hb2 hb3 (by decide) (by decide) (by decide)]
  · unfold scaffoldMapPath
    rw [scaffoldBaseName_fasta_gz (b ++ ".fasta.gz") b
      (by rw [List.append_assoc]; rfl) hb2]
  · intro sfx hs1 hs2 hs3
    unfold scaffoldMapPath
    rw [scaffoldBaseName_single_ext (b ++ "." ++ sfx) b sfx
      (by show (b.toList ++ String.toList ".") ++ sfx.toList
            = b.toList ++ '.' :: sfx.toList
          rw [List.append_assoc]
          rfl)
      hb1 hb2 hb3 hs1 hs2 hs3]

theorem c6_amended_witness :
    ('.' ∉ "genome".toList) ∧ ('/' ∉ "genome".toList) ∧ "genome" ≠ ""
    ∧ scaffoldMapPath "maps" ("genome" ++ ".fasta") = "maps" ++ "/" ++ "genome" ++ ".txt"
    ∧ scaffoldMapPath "maps" ("genome" ++ ".fasta.gz") = "maps" ++ "/" ++ "genome" ++ ".txt"
    ∧ scaffoldMapPath "maps" ("genome" ++ "." ++ "xyz") = "maps" ++ "/" ++ "genome" ++ ".txt" := by
  obtain ⟨h1, h2, h3⟩ := c6_amended_scaffold_map_name "maps" "genome"
    (by decide) (by decide) (by decide)
  exact ⟨by decide, by decide, by decide, h1, h2, h3 "xyz" (by decide) (by decide) (by decide)⟩

/-- Claim C8: the pipeline raises its configuration error, before touching
the work list or any state, exactly when the output path's suffix is not
`.gz`; a conforming output path raises no configuration error. -/
theorem c8_config_error (src : RecordSource) (genomes : List (String × String))
    (out mapDir haplo : String) (reset : Bool) (st : OrchState) :
    ((mainPipeline src genomes out mapDir haplo reset st).configError = true
      ↔ pySuffix out ≠ ".gz")
    ∧ (pySuffix out ≠ ".gz" →
        (mainPipeline src genomes out mapDir haplo reset st).events = []
        ∧ (mainPipeline src genomes out mapDir haplo reset st).finalState = st) := by
  unfold mainPipeline
  by_cases h : pySuffix out = ".gz"
  · simp [h]
  · simp [h]

theorem c8_config_error_witness :
    ((mainPipeline srcC2 [] "out.txt" "maps" "1" false stEmpty).configError = true
      ↔ pySuffix "out.txt" ≠ ".gz")
    ∧ (mainPipeline srcC2 [] "out.txt" "maps" "1" false stEmpty).events = []
    ∧ (mainPipeline srcC2 [] "out.txt" "maps" "1" false stEmpty).finalState = stEmpty
    ∧ (mainPipeline srcC2 [] "out.fasta.gz" "maps" "1" false stEmpty).configError
        = false := by
  obtain ⟨h1, h2⟩ := c8_config_error srcC2 [] "out.txt" "maps" "1" false stEmpty
  obtain ⟨he, hf⟩ := h2 (by decide)
  refine ⟨h1, he, hf, ?_⟩
  have h3 := (c8_config_error srcC2 [] "out.fasta.gz" "maps" "1" false stEmpty).1
  exact Bool.eq_false_iff.mpr (fun hc => (h3.mp hc) (by decide))

/-- Claim C9: once configuration checking passes, the compression step is
invoked exactly once, strictly after all orchestrator events, whatever the
failure count; and the exit code is 0 exactly when the failure count is 0. -/
theorem c9_finalize_once_and_exit_code (src : RecordSource)
    (genomes : List (String × String)) (out mapDir haplo : String)
    (reset : Bool) (st : OrchState)
    (hgz : pySuffix out = ".gz") :
    (mainPipeline src genomes out mapDir haplo reset st).configError = false
    ∧ (mainPipeline src genomes out mapDir haplo reset st).events
      = (rewrite_headers_and_concat_with_checkpoints src genomes mapDir "#" haplo
          (if reset then resetState st else st)).2.2
        ++ [Event.bgzip (pyWithSuffix out "")]
    ∧ ((mainPipeline src genomes out mapDir haplo reset st).events.countP isBgzipEv) = 1
    ∧ (∀ e ∈ (rewrite_headers_and_concat_with_checkpoints src genomes mapDir "#" haplo
          (if reset then resetState st else st)).2.2, isBgzipEv e = false)
    ∧ ((mainPipeline src genomes out mapDir haplo reset st).exitCode = 0
        ↔ (mainPipeline src genomes out mapDir haplo reset st).failures = 0) := by
  have hnb : ∀ e ∈ (rewrite_headers_and_concat_with_checkpoints src genomes mapDir "#" haplo
      (if reset then resetState st else st)).2.2, isBgzipEv e = false := by
    obtain ⟨he, -, -, -, -⟩ := run_spec src genomes mapDir "#" haplo
      (if reset then resetState st else st)
    rw [he]
    exact isBgzipEv_itemEvents src _
  have hmain : mainPipeline src genomes out mapDir haplo reset st
      = { configError := false,
          events := (rewrite_headers_and_concat_with_checkpoints src genomes mapDir "#" haplo
              (if reset then resetState st else st)).2.2
            ++ [Event.bgzip (pyWithSuffix out "")],
          exitCode := if (rewrite_headers_and_concat_with_checkpoints src genomes mapDir "#" haplo
              (if reset then resetState st else st)).2.1 > 0 then 1 else 0,
          failures := (rewrite_headers_and_concat_with_checkpoints src genomes mapDir "#" haplo
              (if reset then resetState st else st)).2.1,
          finalState := (rewrite_headers_and_concat_with_checkpoints src genomes mapDir "#" haplo
              (if reset then resetState st else st)).1 } := by
    unfold mainPipeline
    rw [if_neg (by simp [hgz])]
  rw [hmain]
  refine ⟨rfl, rfl, ?_, hnb, ?_⟩
  · show ((rewrite_headers_and_concat_with_checkpoints src genomes mapDir "#" haplo
        (if reset then resetState st else st)).2.2
        ++ [Event.bgzip (pyWithSuffix out "")]).countP isBgzipEv = 1
    rw [List.countP_append]
    have h0 : (rewrite_headers_and_concat_with_checkpoints src genomes mapDir "#" haplo
        (if reset then resetState st else st)).2.2.countP isBgzipEv = 0 := by
      rw [List.countP_eq_zero]
      intro e he
      simp [hnb e he]
    rw [h0]
    rfl
  · show (if (rewrite_headers_and_concat_with_checkpoints src genomes mapDir "#" haplo
        (if reset then resetState st else st)).2.1 > 0 then 1 else 0) = 0
      ↔ (rewrite_headers_and_concat_with_checkpoints src genomes mapDir "#" haplo
        (if reset then resetState st else st)).2.1 = 0
    by_cases hp : (rewrite_headers_and_concat_with_checkpoints src genomes mapDir "#" haplo
        (if reset then resetState st else st)).2.1 > 0
    · rw [if_pos hp]
      omega
    · rw [if_neg hp]
      omega

theorem c9_finalize_once_and_exit_code_witness :
    pySuffix "out.fasta.gz" = ".gz"
    ∧ (mainPipeline srcC2 [("A", "a.fasta")] "out.fasta.gz" "maps" "1" false
        stEmpty).configError = false
    ∧ ((mainPipeline srcC2 [("A", "a.fasta")] "out.fasta.gz" "maps" "1" false
        stEmpty).events.countP isBgzipEv) = 1
    ∧ ((mainPipeline srcC2 [("A", "a.fasta")] "out.fasta.gz" "maps" "1" false
        stEmpty).exitCode = 0
      ↔ (mainPipeline srcC2 [("A", "a.fasta")] "out.fasta.gz" "maps" "1" false
        stEmpty).failures = 0) := by
  obtain ⟨h1, -, h3, -, h5⟩ := c9_finalize_once_and_exit_code srcC2
    [("A", "a.fasta")] "out.fasta.gz" "maps" "1" false stEmpty (by decide)
  exact ⟨by decide, h1, h3, h5⟩

/-- Claim C10: the reset operation empties exactly the checkpoint file and
the uncompressed temp output, and leaves the scaffold-map files and the
error log untouched. -/
theorem c10_reset_frame (st : OrchState) :
    (resetState st).ckpt = none
    ∧ (resetState st).tempOut = none
    ∧ (resetState st).errlog = st.errlog
    ∧ (resetState st).mapsFs = st.mapsFs := by
  unfold resetState
  by_cases h1 : st.ckpt.isSome <;> by_cases h2 : st.tempOut.isSome <;>
    simp [h1, h2] <;>
    first
    | exact Option.not_isSome_iff_eq_none.mp h1
    | exact ⟨Option.not_isSome_iff_eq_none.mp h1, Option.not_isSome_iff_eq_none.mp h2⟩
    | exact Option.not_isSome_iff_eq_none.mp h2
